import Mathlib

/-!
# Intro To Templates: a verification development

A shallow embedding of `main.cpp`: the two hand-written `PrintMidpoint`
overloads, the templates `PrintMidpointTemplated`, `PrintTwoThings` and
`PrintArray`, and the call sites of `main` that pin template arguments.

* `cout` is an explicit output buffer that every function takes and returns.
* `int` is a 32-bit two's-complement integer; arithmetic results are reduced
  modulo 2^32 into the signed range.
* `char` is one byte; whether it promotes as a signed or an unsigned value is
  a parameter of the development.
* A template is a function that takes the operations of its type argument as
  an explicit dictionary; instantiation supplies the dictionary.
-/

namespace Templates

/-! ## The output stream -/

/-- The text written to `cout` so far. -/
structure ostream where
  buf : String
deriving DecidableEq

/-- Append raw text to the stream. -/
def ostream.write (os : ostream) (s : String) : ostream := ⟨os.buf ++ s⟩

/-- The manipulator `endl`: a line terminator (the flush leaves the text unchanged). -/
def endl (os : ostream) : ostream := os.write "\n"

/-- A type with an `operator<<` into `ostream`; `text` is what the operator writes. -/
class Insertable (α : Type) where
  text : α → String

/-- The expression `os << x`. -/
def ostream.put {α : Type} [Insertable α] (os : ostream) (x : α) : ostream :=
  os.write (Insertable.text x)

/-! ## The type `int` -/

def INT_MIN : Int := -2147483648
def INT_MAX : Int := 2147483647

/-- Reduce an integer modulo 2^32 into the range of a signed 32-bit `int`. -/
def wrap32 (x : Int) : Int := (x + 2147483648) % 4294967296 - 2147483648

/-- A value of type `int`. -/
structure CInt where
  val : Int
  lo : INT_MIN ≤ val
  hi : val ≤ INT_MAX
deriving DecidableEq

/-- Conversion of an integer value to `int`. -/
def CInt.ofInt (x : Int) : CInt :=
  ⟨wrap32 x, by unfold wrap32 INT_MIN; omega, by unfold wrap32 INT_MAX; omega⟩

instance (n : Nat) : OfNat CInt n := ⟨CInt.ofInt n⟩

/-- The expression `a + b` on two `int`s. -/
def CInt.add (a b : CInt) : CInt := CInt.ofInt (a.val + b.val)

/-- The expression `a / b` on two `int`s with `b` nonzero: the quotient is truncated toward zero. -/
def CInt.div (a b : CInt) : CInt := CInt.ofInt (Int.tdiv a.val b.val)

/-- Decimal text of an integer: the digits, with a leading minus sign when negative. -/
def decimal (x : Int) : String :=
  if x < 0 then "-" ++ Nat.repr x.natAbs else Nat.repr x.natAbs

instance : Insertable CInt := ⟨fun x => decimal x.val⟩

/-! ## Midpoint: the hand-written `int` overload -/

/-- The expression `(a + b) / 2` at type `int`. -/
def midpointInt (a b : CInt) : CInt := CInt.div (CInt.add a b) 2

/-- The overload `void PrintMidpoint(const int a, const int b)`. -/
def PrintMidpoint (a b : CInt) (os : ostream) : ostream :=
  endl (os.put (midpointInt a b))

/-! ## The type `char` and string literals -/

/-- A value of type `char`: one byte. -/
structure CChar where
  byte : Nat
  h : byte < 256
deriving DecidableEq

instance (n : Nat) : OfNat CChar n := ⟨⟨n % 256, Nat.mod_lt _ (by decide)⟩⟩

/-- The numeric code of a `char` for the given signedness of the type `char`. -/
def CChar.code (isSigned : Bool) (c : CChar) : Int :=
  if isSigned && decide (128 ≤ c.byte) then (c.byte : Int) - 256 else (c.byte : Int)

/-- Integral promotion of a `char` to `int`: the value is kept. -/
def CChar.promote (isSigned : Bool) (c : CChar) : CInt :=
  ⟨c.code isSigned,
    by have := c.h; unfold CChar.code INT_MIN; split <;> omega,
    by have := c.h; unfold CChar.code INT_MAX; split <;> omega⟩

/-- Conversion of an `int` to `char`: the low byte. -/
def CChar.ofInt (n : CInt) : CChar :=
  ⟨(n.val % 256).toNat, by have := n.lo; have := n.hi; omega⟩

/-- A character literal of the source, such as `'a'`. -/
def CChar.lit (c : Char) : CChar := ⟨c.toNat % 256, Nat.mod_lt _ (by decide)⟩

/-- The byte as it appears in the output text. -/
def CChar.toChar (c : CChar) : Char := Char.ofNat c.byte

instance : Insertable CChar := ⟨fun c => String.singleton c.toChar⟩

/-- The terminator character. -/
def NUL : CChar := 0

/-- The array behind a string literal: its characters, then the terminator. -/
def backing (s : List CChar) : List CChar := s ++ [NUL]

/-- The characters of an ASCII literal of the source. -/
def ascii (s : String) : List CChar := s.toList.map CChar.lit

/-- A `const char*` that points at the first element of `mem`. -/
structure CStr where
  mem : List CChar

/-- The pointer a string literal decays to. -/
def CStr.lit (s : String) : CStr := ⟨backing (ascii s)⟩

/-- Inserting a `const char*` writes the characters before the first terminator. -/
instance : Insertable CStr :=
  ⟨fun p => String.mk ((p.mem.takeWhile (fun c => decide (c ≠ NUL))).map CChar.toChar)⟩

/-! ## Midpoint: the hand-written `float` overload

The arithmetic of `float` and the text the stream writes for a `float` are
parameters: the type, its addition, its division, the conversion of an `int`
to it, and its insertion. -/

structure FloatSem where
  F : Type
  add : F → F → F
  div : F → F → F
  ofInt : CInt → F
  text : F → String

/-- The overload `void PrintMidpoint(const float a, const float b)`; the literal `2` is
converted to `float` before the division. -/
def PrintMidpoint_float (fs : FloatSem) (a b : fs.F) (os : ostream) : ostream :=
  endl (os.write (fs.text (fs.div (fs.add a b) (fs.ofInt 2))))

/-! ## The templates -/

/-- What `PrintMidpointTemplated` needs of `SomeType`: the type of `a + b` after the usual
arithmetic conversions, the sum, the division of that type by an `int`, and the insertion
of the result. -/
structure Arith (T : Type) where
  Promoted : Type
  add : T → T → Promoted
  divInt : Promoted → CInt → Promoted
  text : Promoted → String

/-- The template `PrintMidpointTemplated<SomeType>`. -/
def PrintMidpointTemplated {T : Type} (ops : Arith T) (a b : T) (os : ostream) : ostream :=
  endl (os.write (ops.text (ops.divInt (ops.add a b) 2)))

/-- Instantiation at `int`. -/
def intArith : Arith CInt := ⟨CInt, CInt.add, CInt.div, Insertable.text⟩

/-- Instantiation at `char`: both operands are promoted to `int` and the sum, the quotient
and the inserted value are `int`s. -/
def charArith (isSigned : Bool) : Arith CChar :=
  ⟨CInt, fun a b => CInt.add (a.promote isSigned) (b.promote isSigned), CInt.div,
    Insertable.text⟩

/-- Instantiation at `float`. -/
def floatArith (fs : FloatSem) : Arith fs.F :=
  ⟨fs.F, fs.add, fun x n => fs.div x (fs.ofInt n), fs.text⟩

/-- The template `PrintTwoThings<TypeA, TypeB>`. -/
def PrintTwoThings {A B : Type} [Insertable A] [Insertable B] (a : A) (b : B)
    (os : ostream) : ostream :=
  endl (((os.put a).put (CStr.lit " ")).put b)

/-- The call `PrintTwoThings<char, char>(m, n)` with `int` arguments: each argument is
converted to `char`. -/
def PrintTwoThings_char_char (m n : CInt) (os : ostream) : ostream :=
  PrintTwoThings (CChar.ofInt m) (CChar.ofInt n) os

/-- The stream and the indices of `arrayToPrint` read so far, oldest first. -/
structure Trace where
  cout : ostream
  reads : List Int
deriving DecidableEq

/-- How a run of `PrintArray` ends: normally, at a read outside the array, or because the
model ran out of steps. -/
inductive Outcome where
  | ok (t : Trace)
  | outOfBounds (i : Int)
  | outOfFuel
deriving DecidableEq

/-- The read `arrayToPrint[i]`. -/
def index {α : Type} (arr : List α) (i : CInt) : Option α :=
  if 0 ≤ i.val then arr[i.val.toNat]? else none

/-- The loop `for (int i = ...; i < length; i++)` of `PrintArray`, from the given `i`. -/
def PrintArrayLoop {α : Type} [Insertable α] (arr : List α) (length : CInt) :
    Nat → CInt → Trace → Outcome
  | 0, i, st => if i.val < length.val then Outcome.outOfFuel else Outcome.ok st
  | fuel + 1, i, st =>
    if i.val < length.val then
      match index arr i with
      | none => Outcome.outOfBounds i.val
      | some x =>
        PrintArrayLoop arr length fuel (CInt.add i 1)
          ⟨(st.cout.put x).put (CStr.lit " "), st.reads ++ [i.val]⟩
    else Outcome.ok st

/-- The template `PrintArray<Type>`; `arr` is the array `arrayToPrint` points into. -/
def PrintArray {α : Type} [Insertable α] (arr : List α) (length : CInt)
    (os : ostream) : Outcome :=
  match PrintArrayLoop arr length length.val.toNat 0 ⟨os, []⟩ with
  | Outcome.ok st => Outcome.ok ⟨endl st.cout, st.reads⟩
  | e => e

/-- The value of `sizeof` on a `char` array initialised from a literal of the given
characters. -/
def sizeofLit (s : List CChar) : CInt := CInt.ofInt (backing s).length

/-- Each element's text followed by one space, in list order. -/
def spaced {α : Type} [Insertable α] : List α → String
  | [] => ""
  | x :: xs => Insertable.text x ++ " " ++ spaced xs

/-- The indices `0, 1, ..., n - 1`. -/
def indices (n : Nat) : List Int := (List.range n).map Int.ofNat

/-- The values of `char` for the given signedness of the type. -/
def inCharRange (isSigned : Bool) (m : Int) : Prop :=
  if isSigned then -128 ≤ m ∧ m ≤ 127 else 0 ≤ m ∧ m ≤ 255

instance (isSigned : Bool) (m : Int) : Decidable (inCharRange isSigned m) := by
  unfold inCharRange; infer_instance

/-! ## Basic facts -/

theorem wrap32_of_fits (x : Int) (h0 : INT_MIN ≤ x) (h1 : x ≤ INT_MAX) : wrap32 x = x := by
  unfold INT_MIN at h0; unfold INT_MAX at h1; unfold wrap32; omega

theorem tdiv_two (x : Int) :
    (0 ≤ x → Int.tdiv x 2 = x / 2) ∧ (x < 0 → Int.tdiv x 2 = -((-x) / 2)) := by
  constructor
  · intro h
    exact Int.tdiv_eq_ediv h (by decide)
  · intro h
    have h1 : Int.tdiv (-x) 2 = (-x) / 2 := Int.tdiv_eq_ediv (by omega) (by decide)
    have h2 : Int.tdiv (-x) 2 = -(Int.tdiv x 2) := Int.neg_tdiv x 2
    omega

theorem midpointInt_val (a b : CInt) :
    (midpointInt a b).val = wrap32 (Int.tdiv (wrap32 (a.val + b.val)) 2) := rfl

theorem midpointInt_of_fits (a b : CInt) (h0 : INT_MIN ≤ a.val + b.val)
    (h1 : a.val + b.val ≤ INT_MAX) :
    (midpointInt a b).val = Int.tdiv (a.val + b.val) 2 := by
  rw [midpointInt_val, wrap32_of_fits _ h0 h1]
  apply wrap32_of_fits
  · have h := tdiv_two (a.val + b.val)
    unfold INT_MIN at *; omega
  · have h := tdiv_two (a.val + b.val)
    unfold INT_MAX at *; unfold INT_MIN at h0; omega

theorem PrintMidpoint_buf (a b : CInt) (os : ostream) :
    (PrintMidpoint a b os).buf = os.buf ++ decimal (midpointInt a b).val ++ "\n" := rfl

theorem PrintMidpointTemplated_int_buf (a b : CInt) (os : ostream) :
    (PrintMidpointTemplated intArith a b os).buf
      = os.buf ++ decimal (midpointInt a b).val ++ "\n" := rfl

theorem text_space : Insertable.text (CStr.lit " ") = " " := by decide

theorem PrintTwoThings_buf {A B : Type} [Insertable A] [Insertable B] (a : A) (b : B)
    (os : ostream) :
    (PrintTwoThings a b os).buf
      = os.buf ++ Insertable.text a ++ " " ++ Insertable.text b ++ "\n" := by
  show os.buf ++ Insertable.text a ++ Insertable.text (CStr.lit " ") ++ Insertable.text b
      ++ "\n" = _
  rw [text_space]

theorem spaced_append {α : Type} [Insertable α] (xs ys : List α) :
    spaced (xs ++ ys) = spaced xs ++ spaced ys := by
  induction xs with
  | nil => simp [spaced]
  | cons x xs ih => simp [spaced, ih, String.append_assoc]

/-- The loop invariant of `PrintArray`: started at index `k` with as many steps left as
there are indices below `length`, all inside the array, the loop ends normally having
written the elements `k, ..., length - 1` and read exactly those indices. -/
theorem PrintArrayLoop_ok {α : Type} [Insertable α] (arr : List α) (length : CInt) :
    ∀ (fuel : Nat) (i : CInt) (k : Nat) (st : Trace), i.val = (k : Int) →
      (k : Int) + (fuel : Int) = length.val → k + fuel ≤ arr.length →
      PrintArrayLoop arr length fuel i st
        = Outcome.ok ⟨⟨st.cout.buf ++ spaced ((arr.drop k).take fuel)⟩,
            st.reads ++ (List.range' k fuel).map Int.ofNat⟩ := by
  intro fuel
  induction fuel with
  | zero =>
    intro i k st hi hlen _
    have hnot : ¬ i.val < length.val := by omega
    simp [PrintArrayLoop, hnot, spaced]
  | succ fuel ih =>
    intro i k st hi hlen hsize
    have hlt : i.val < length.val := by omega
    have hk : k < arr.length := by omega
    have hidx : index arr i = some (arr[k]) := by
      unfold index
      have h0 : (0 : Int) ≤ i.val := by omega
      have hnat : i.val.toNat = k := by omega
      simp [h0, hnat, hk]
    have hnext : (CInt.add i 1).val = ((k + 1 : Nat) : Int) := by
      show wrap32 (i.val + wrap32 1) = _
      have hhi := length.hi
      have h1 : wrap32 1 = 1 := by decide
      rw [h1]
      rw [wrap32_of_fits]
      · omega
      · unfold INT_MIN; omega
      · unfold INT_MAX at *; omega
    have hrec := ih (CInt.add i 1) (k + 1)
      ⟨(st.cout.put arr[k]).put (CStr.lit " "), st.reads ++ [i.val]⟩ hnext
      (by push_cast; omega) (by omega)
    rw [PrintArrayLoop]
    simp only [hlt, if_true, hidx]
    rw [hrec]
    have hdrop : arr.drop k = arr[k] :: arr.drop (k + 1) := List.drop_eq_getElem_cons hk
    have hbuf : ((st.cout.put arr[k]).put (CStr.lit " ")).buf
        = st.cout.buf ++ Insertable.text arr[k] ++ " " := by
      show st.cout.buf ++ Insertable.text arr[k] ++ Insertable.text (CStr.lit " ") = _
      rw [text_space]
    simp only [hbuf, hdrop, List.take_succ_cons, spaced, List.range'_succ, List.map_cons,
      String.append_assoc, List.append_assoc, List.singleton_append, hi]
    rfl

theorem PrintArray_ok {α : Type} [Insertable α] (arr : List α) (length : CInt)
    (os : ostream) (h0 : 0 ≤ length.val) (h1 : length.val ≤ (arr.length : Int)) :
    PrintArray arr length os
      = Outcome.ok ⟨⟨os.buf ++ spaced (arr.take length.val.toNat) ++ "\n"⟩,
          indices length.val.toNat⟩ := by
  have h := PrintArrayLoop_ok arr length length.val.toNat 0 0 ⟨os, []⟩ (by decide)
    (by omega) (by omega)
  unfold PrintArray
  rw [h]
  simp [indices, List.range_eq_range', endl, ostream.write]

theorem PrintMidpointTemplated_char_buf (isSigned : Bool) (a b : CChar) (os : ostream) :
    (PrintMidpointTemplated (charArith isSigned) a b os).buf
      = os.buf ++ decimal (midpointInt (a.promote isSigned) (b.promote isSigned)).val
          ++ "\n" := rfl

theorem CChar.code_range (isSigned : Bool) (c : CChar) :
    -128 ≤ c.code isSigned ∧ c.code isSigned ≤ 255 := by
  have := c.h
  unfold CChar.code
  cases isSigned
  · simp only [Bool.false_and, if_false, Bool.false_eq_true]
    omega
  · simp only [Bool.true_and, decide_eq_true_eq]
    split <;> omega

theorem CChar.code_ofInt (isSigned : Bool) (m : CInt) (h : inCharRange isSigned m.val) :
    (CChar.ofInt m).code isSigned = m.val := by
  unfold inCharRange at h
  unfold CChar.code CChar.ofInt
  cases isSigned
  · simp only [if_false, Bool.false_eq_true] at h
    simp only [Bool.false_and, if_false, Bool.false_eq_true]
    omega
  · simp only [if_true] at h
    simp only [Bool.true_and, decide_eq_true_eq]
    split <;> omega

/-! ## The claims -/

/-- Claim C1, amended: for every pair of `int` values whose sum fits in the 32-bit signed
range, `PrintMidpoint(int, int)` and `PrintMidpointTemplated<int>` append the decimal
text of `(a + b) / 2`, the quotient truncated toward zero, and a line terminator; for
`1` and `4` the text is `2`. -/
theorem PrintMidpoint_int_truncates (a b : CInt) (os : ostream)
    (hlo : INT_MIN ≤ a.val + b.val) (hhi : a.val + b.val ≤ INT_MAX) :
    (PrintMidpoint a b os).buf = os.buf ++ decimal (Int.tdiv (a.val + b.val) 2) ++ "\n"
    ∧ (PrintMidpointTemplated intArith a b os).buf
        = os.buf ++ decimal (Int.tdiv (a.val + b.val) 2) ++ "\n"
    ∧ (PrintMidpoint 1 4 os).buf = os.buf ++ "2" ++ "\n"
    ∧ (PrintMidpointTemplated intArith 1 4 os).buf = os.buf ++ "2" ++ "\n" := by
  refine ⟨?_, ?_, rfl, rfl⟩
  · rw [PrintMidpoint_buf, midpointInt_of_fits a b hlo hhi]
  · rw [PrintMidpointTemplated_int_buf, midpointInt_of_fits a b hlo hhi]

theorem PrintMidpoint_int_truncates_witness :
    (INT_MIN ≤ (CInt.ofInt (-3)).val + (CInt.ofInt (-4)).val
      ∧ (CInt.ofInt (-3)).val + (CInt.ofInt (-4)).val ≤ INT_MAX)
    ∧ (PrintMidpoint (CInt.ofInt (-3)) (CInt.ofInt (-4)) ⟨"out: "⟩).buf = "out: -3\n" :=
  ⟨by decide,
    (PrintMidpoint_int_truncates (CInt.ofInt (-3)) (CInt.ofInt (-4)) ⟨"out: "⟩
      (by decide) (by decide)).1⟩

/-- Claim C1 as stated fails where the sum leaves the `int` range: for `2147483647` and
`1` both functions write `-1073741824`, while `(a + b) / 2` is `1073741824`. -/
theorem PrintMidpoint_int_overflow_counterexample :
    (PrintMidpoint (CInt.ofInt 2147483647) 1 ⟨""⟩).buf = "-1073741824\n"
    ∧ (PrintMidpointTemplated intArith (CInt.ofInt 2147483647) 1 ⟨""⟩).buf
        = "-1073741824\n"
    ∧ decimal (Int.tdiv ((CInt.ofInt 2147483647).val + (1 : CInt).val) 2) ++ "\n"
        = "1073741824\n"
    ∧ (PrintMidpoint (CInt.ofInt 2147483647) 1 ⟨""⟩).buf
        ≠ decimal (Int.tdiv ((CInt.ofInt 2147483647).val + (1 : CInt).val) 2) ++ "\n" := by
  decide

/-- Claim C2: for every array `xs` and every `int` length `n` with `0 ≤ n ≤ size of xs`,
`PrintArray(xs, n)` ends normally, reads exactly the indices `0, ..., n - 1` in that
order, and appends the text of each of the first `n` elements followed by one space,
then one line terminator; for `{1,2,3,4,5}` and `5` the text is `1 2 3 4 5 ` and a
newline. -/
theorem PrintArray_prints_first_n {α : Type} [Insertable α] (xs : List α) (n : CInt)
    (os : ostream) (h0 : 0 ≤ n.val) (h1 : n.val ≤ (xs.length : Int)) :
    PrintArray xs n os
        = Outcome.ok ⟨⟨os.buf ++ spaced (xs.take n.val.toNat) ++ "\n"⟩,
            indices n.val.toNat⟩
    ∧ PrintArray [(1 : CInt), 2, 3, 4, 5] 5 os
        = Outcome.ok ⟨⟨os.buf ++ "1 2 3 4 5 " ++ "\n"⟩, [0, 1, 2, 3, 4]⟩ := by
  refine ⟨PrintArray_ok xs n os h0 h1, ?_⟩
  rw [PrintArray_ok [(1 : CInt), 2, 3, 4, 5] 5 os (by decide) (by decide)]
  have hs : spaced (List.take (5 : CInt).val.toNat [(1 : CInt), 2, 3, 4, 5])
      = "1 2 3 4 5 " := by decide
  have hi : indices (5 : CInt).val.toNat = [0, 1, 2, 3, 4] := by decide
  rw [hs, hi]

theorem PrintArray_prints_first_n_witness :
    (0 ≤ (2 : CInt).val ∧ (2 : CInt).val ≤ ([(7 : CInt), 8, 9].length : Int))
    ∧ PrintArray [(7 : CInt), 8, 9] 2 ⟨"xs: "⟩ = Outcome.ok ⟨⟨"xs: 7 8 \n"⟩, [0, 1]⟩ :=
  ⟨by decide,
    (PrintArray_prints_first_n [(7 : CInt), 8, 9] 2 ⟨"xs: "⟩ (by decide) (by decide)).1⟩

/-- Claim C3: for every pair of values of two printable types, `PrintTwoThings(a, b)`
appends the text of `a`, one space, the text of `b` and one line terminator, and nothing
else; with the literal `"pi:"` and a value whose text is `3.14159` the line is
`pi: 3.14159`. -/
theorem PrintTwoThings_line {A B : Type} [Insertable A] [Insertable B] (a : A) (b : B)
    (os : ostream) :
    (PrintTwoThings a b os).buf
        = os.buf ++ Insertable.text a ++ " " ++ Insertable.text b ++ "\n"
    ∧ ∀ (D : Type) [Insertable D] (d : D), Insertable.text d = "3.14159" →
        (PrintTwoThings (CStr.lit "pi:") d os).buf = os.buf ++ "pi: 3.14159" ++ "\n" := by
  refine ⟨PrintTwoThings_buf a b os, ?_⟩
  intro D _ d hd
  rw [PrintTwoThings_buf, hd]
  have hpi : Insertable.text (CStr.lit "pi:") = "pi:" := by decide
  rw [hpi]
  simp only [String.append_assoc]
  rfl

theorem PrintTwoThings_line_witness :
    Insertable.text (CStr.lit "3.14159") = "3.14159"
    ∧ (PrintTwoThings (CStr.lit "pi:") (CStr.lit "3.14159") ⟨""⟩).buf
        = "" ++ "pi: 3.14159" ++ "\n" :=
  ⟨by decide,
    (PrintTwoThings_line (CStr.lit "Hello,") (CStr.lit "World!") ⟨""⟩).2 CStr
      (CStr.lit "3.14159") (by decide)⟩

/-- Claim C4: for every pair of `char` values, `PrintMidpointTemplated<char>` appends the
decimal number `(code(a) + code(b)) / 2` and a line terminator: the operands are promoted
to `int`, their sum stays inside the `int` range, and the result is written as a number;
for `'a'` and `'c'` the text is `98`. -/
theorem PrintMidpointTemplated_char_number (isSigned : Bool) (a b : CChar) (os : ostream) :
    (PrintMidpointTemplated (charArith isSigned) a b os).buf
        = os.buf ++ decimal (Int.tdiv (a.code isSigned + b.code isSigned) 2) ++ "\n"
    ∧ (INT_MIN ≤ a.code isSigned + b.code isSigned
        ∧ a.code isSigned + b.code isSigned ≤ INT_MAX)
    ∧ (PrintMidpointTemplated (charArith isSigned) (CChar.lit 'a') (CChar.lit 'c') os).buf
        = os.buf ++ "98" ++ "\n" := by
  have ha := a.code_range isSigned
  have hb := b.code_range isSigned
  have hlo : INT_MIN ≤ a.code isSigned + b.code isSigned := by unfold INT_MIN; omega
  have hhi : a.code isSigned + b.code isSigned ≤ INT_MAX := by unfold INT_MAX; omega
  refine ⟨?_, ⟨hlo, hhi⟩, ?_⟩
  · rw [PrintMidpointTemplated_char_buf]
    rw [midpointInt_of_fits (a.promote isSigned) (b.promote isSigned) hlo hhi]
    rfl
  · rw [PrintMidpointTemplated_char_buf]
    have h98 : decimal (midpointInt ((CChar.lit 'a').promote isSigned)
        ((CChar.lit 'c').promote isSigned)).val = "98" := by
      cases isSigned <;> decide
    rw [h98]

/-- Claim C5: with both type arguments of `PrintTwoThings` pinned to `char`, `int`
arguments inside the `char` range are converted to the characters with those codes and
written as characters: the output is the character with code `m`, one space, the
character with code `n`, and a line terminator; for `79` and `75` it is `O K`, where
the instantiation at `int` writes `79 75`. -/
theorem PrintTwoThings_char_char_chars (isSigned : Bool) (m n : CInt) (os : ostream)
    (hm : inCharRange isSigned m.val) (hn : inCharRange isSigned n.val) :
    (CChar.ofInt m).code isSigned = m.val
    ∧ (CChar.ofInt n).code isSigned = n.val
    ∧ (PrintTwoThings_char_char m n os).buf
        = os.buf ++ String.singleton (CChar.ofInt m).toChar ++ " "
            ++ String.singleton (CChar.ofInt n).toChar ++ "\n"
    ∧ (PrintTwoThings_char_char 79 75 os).buf = os.buf ++ "O K" ++ "\n"
    ∧ (PrintTwoThings (79 : CInt) (75 : CInt) os).buf = os.buf ++ "79 75" ++ "\n" := by
  refine ⟨CChar.code_ofInt isSigned m hm, CChar.code_ofInt isSigned n hn, ?_, ?_, ?_⟩
  · exact PrintTwoThings_buf (CChar.ofInt m) (CChar.ofInt n) os
  · unfold PrintTwoThings_char_char
    rw [PrintTwoThings_buf]
    have h79 : Insertable.text (CChar.ofInt 79) = "O" := by decide
    have h75 : Insertable.text (CChar.ofInt 75) = "K" := by decide
    rw [h79, h75]
    simp only [String.append_assoc]
    rfl
  · rw [PrintTwoThings_buf]
    have h79 : Insertable.text (79 : CInt) = "79" := by decide
    have h75 : Insertable.text (75 : CInt) = "75" := by decide
    rw [h79, h75]
    simp only [String.append_assoc]
    rfl

theorem PrintTwoThings_char_char_chars_witness :
    (inCharRange true (CInt.ofInt (-1)).val ∧ inCharRange true (CInt.ofInt 75).val)
    ∧ (CChar.ofInt (CInt.ofInt (-1))).code true = -1
    ∧ (PrintTwoThings_char_char 79 75 ⟨""⟩).buf = "" ++ "O K" ++ "\n" :=
  ⟨by decide,
    (PrintTwoThings_char_char_chars true (CInt.ofInt (-1)) (CInt.ofInt 75) ⟨""⟩
      (by decide) (by decide)).1,
    (PrintTwoThings_char_char_chars true (CInt.ofInt (-1)) (CInt.ofInt 75) ⟨""⟩
      (by decide) (by decide)).2.2.2.1⟩

/-- Claim C7: for every string literal `s` of `k` characters, whose array holds the `k`
characters and the terminator, `PrintArray(s, k + 1)` ends normally, reads exactly the
indices `0, ..., k`, all of them inside the array, and appends `k + 1` elements each
followed by one space, the last one the terminator, then a line terminator; the call
with `"print string test"` and `sizeof(c)`, which is `18`, appends 18 elements. -/
theorem PrintArray_literal_in_bounds (s : List CChar) (n : CInt) (os : ostream)
    (hn : n.val = (s.length : Int) + 1) :
    PrintArray (backing s) n os
        = Outcome.ok ⟨⟨os.buf ++ (spaced s ++ (Insertable.text NUL ++ " ")) ++ "\n"⟩,
            indices (s.length + 1)⟩
    ∧ (backing s).length = s.length + 1
    ∧ (∀ i ∈ indices (s.length + 1), 0 ≤ i ∧ i < ((backing s).length : Int))
    ∧ (sizeofLit (ascii "print string test")).val = 18
    ∧ PrintArray (backing (ascii "print string test"))
          (sizeofLit (ascii "print string test")) os
        = Outcome.ok ⟨⟨os.buf ++ "p r i n t   s t r i n g   t e s t \x00 " ++ "\n"⟩,
            indices 18⟩ := by
  have hlen : (backing s).length = s.length + 1 := by simp [backing]
  have hnat : n.val.toNat = s.length + 1 := by omega
  refine ⟨?_, hlen, ?_, by decide, ?_⟩
  · rw [PrintArray_ok (backing s) n os (by omega) (by rw [hlen]; push_cast; omega), hnat]
    have htake : List.take (s.length + 1) (backing s) = s ++ [NUL] := by
      rw [← hlen]; exact List.take_length (backing s)
    rw [htake, spaced_append]
    simp [spaced]
  · intro i hi
    simp only [indices, List.mem_map, List.mem_range] at hi
    obtain ⟨j, hj, rfl⟩ := hi
    rw [hlen]
    constructor
    · exact Int.ofNat_nonneg j
    · exact Int.ofNat_lt.mpr hj
  · rw [PrintArray_ok _ _ os (by decide) (by decide)]
    have hs : spaced (List.take (sizeofLit (ascii "print string test")).val.toNat
        (backing (ascii "print string test")))
        = "p r i n t   s t r i n g   t e s t \x00 " := by decide
    have hi : (sizeofLit (ascii "print string test")).val.toNat = 18 := by decide
    rw [hs, hi]

theorem PrintArray_literal_in_bounds_witness :
    (sizeofLit (ascii "hi")).val = ((ascii "hi").length : Int) + 1
    ∧ PrintArray (backing (ascii "hi")) (sizeofLit (ascii "hi")) ⟨""⟩
        = Outcome.ok ⟨⟨"h i \x00 \n"⟩, [0, 1, 2]⟩ :=
  ⟨by decide,
    (PrintArray_literal_in_bounds (ascii "hi") (sizeofLit (ascii "hi")) ⟨""⟩
      (by decide)).1⟩

/-- Claim C8: the template replaces the hand-written overloads: for every pair of `int`s
the output of `PrintMidpointTemplated<int>` equals that of `PrintMidpoint(int, int)`, and
for every pair of `float`s, whatever the arithmetic and the text of `float` are, the
output of `PrintMidpointTemplated<float>` equals that of `PrintMidpoint(float, float)`. -/
theorem PrintMidpointTemplated_eq_overloads (a b : CInt) (fs : FloatSem) (x y : fs.F)
    (os : ostream) :
    PrintMidpointTemplated intArith a b os = PrintMidpoint a b os
    ∧ PrintMidpointTemplated (floatArith fs) x y os = PrintMidpoint_float fs x y os :=
  ⟨rfl, rfl⟩

/-- Claim C9: for every pair of `int` values whose sum fits in the 32-bit signed range,
the value written by the integer midpoint lies between them,
`min(a,b) ≤ (a+b)/2 ≤ max(a,b)`; the midpoint of `a` and `a` is `a`; and the result and
the output do not depend on the order of the two arguments. -/
theorem midpointInt_between (a b : CInt) (os : ostream)
    (hlo : INT_MIN ≤ a.val + b.val) (hhi : a.val + b.val ≤ INT_MAX) :
    (min a.val b.val ≤ (midpointInt a b).val ∧ (midpointInt a b).val ≤ max a.val b.val)
    ∧ (a = b → midpointInt a b = a)
    ∧ midpointInt a b = midpointInt b a
    ∧ PrintMidpoint a b os = PrintMidpoint b a os
    ∧ PrintMidpointTemplated intArith a b os = PrintMidpointTemplated intArith b a os
    ∧ (PrintMidpoint a b os).buf = os.buf ++ decimal (midpointInt a b).val ++ "\n"
    ∧ (PrintMidpointTemplated intArith a b os).buf
        = os.buf ++ decimal (midpointInt a b).val ++ "\n" := by
  have hv := midpointInt_of_fits a b hlo hhi
  have ht := tdiv_two (a.val + b.val)
  have hcomm : midpointInt a b = midpointInt b a := by
    unfold midpointInt CInt.add
    rw [Int.add_comm]
  refine ⟨⟨?_, ?_⟩, ?_, hcomm, ?_, ?_, rfl, rfl⟩
  · rw [hv]; omega
  · rw [hv]; omega
  · intro hab
    subst hab
    have hval : (midpointInt a a).val = a.val := by rw [hv]; omega
    cases a
    cases hm : midpointInt _ _
    simp only [hm] at hval
    simp only [CInt.mk.injEq]
    exact hval
  · unfold PrintMidpoint; rw [hcomm]
  · show PrintMidpoint a b os = PrintMidpoint b a os
    unfold PrintMidpoint; rw [hcomm]

theorem midpointInt_between_witness :
    (INT_MIN ≤ (CInt.ofInt (-7)).val + (2 : CInt).val
      ∧ (CInt.ofInt (-7)).val + (2 : CInt).val ≤ INT_MAX)
    ∧ (min (CInt.ofInt (-7)).val (2 : CInt).val ≤ (midpointInt (CInt.ofInt (-7)) 2).val
      ∧ (midpointInt (CInt.ofInt (-7)) 2).val ≤ max (CInt.ofInt (-7)).val (2 : CInt).val) :=
  ⟨by decide,
    (midpointInt_between (CInt.ofInt (-7)) 2 ⟨""⟩ (by decide) (by decide)).1⟩

/-- Claim C10: the integer midpoint adds before it divides and does not guard the sum:
with overflow as wraparound modulo 2^32 the value is `wrap32 ((wrap32 (a + b)) / 2)`,
and for `a = b = 2147483647` both functions write `-1`, which is not the mathematical
midpoint `2147483647` and lies outside the interval `[min(a,b), max(a,b)]`. -/
theorem midpointInt_overflow_escapes :
    (∀ a b : CInt, (midpointInt a b).val = wrap32 (Int.tdiv (wrap32 (a.val + b.val)) 2))
    ∧ (midpointInt (CInt.ofInt 2147483647) (CInt.ofInt 2147483647)).val = -1
    ∧ (PrintMidpoint (CInt.ofInt 2147483647) (CInt.ofInt 2147483647) ⟨""⟩).buf = "-1\n"
    ∧ (PrintMidpointTemplated intArith (CInt.ofInt 2147483647) (CInt.ofInt 2147483647)
        ⟨""⟩).buf = "-1\n"
    ∧ Int.tdiv ((CInt.ofInt 2147483647).val + (CInt.ofInt 2147483647).val) 2 = 2147483647
    ∧ (midpointInt (CInt.ofInt 2147483647) (CInt.ofInt 2147483647)).val
        < min (CInt.ofInt 2147483647).val (CInt.ofInt 2147483647).val
    ∧ ∃ a b : CInt, (midpointInt a b).val ≠ Int.tdiv (a.val + b.val) 2
        ∧ ¬ (min a.val b.val ≤ (midpointInt a b).val
              ∧ (midpointInt a b).val ≤ max a.val b.val) := by
  refine ⟨fun a b => rfl, by decide, by decide, by decide, by decide, by decide, ?_⟩
  exact ⟨CInt.ofInt 2147483647, CInt.ofInt 2147483647, by decide, by decide⟩

end Templates
